import Mathlib

set_option maxRecDepth 8000

/-!
Shallow embedding of the craftr meta build system core: the target
dependency graph and property inheritance (`src/craftr/api/__init__.py`),
build-set partitioning (`BuildSet.partite`), and the action execution
state machine (`lib/core/actions.py`).

Modelling conventions: Python object state becomes explicit functional
state; each distinct Python `raise` site becomes one constructor of an
error type returned through `Except`; generators are modelled as eagerly
produced lists; the unbounded Python recursion in the dependency
traversal is made total with an explicit fuel parameter, where a result
of `none` models a traversal that never terminates (in CPython: exceeds
the recursion limit) no matter how much fuel is supplied; thread
synchronisation primitives (`ts.condition`, locks) are no-ops in the
single-threaded model.
-/

/-- Deduplication keeping the first occurrence of each element, with an
accumulator of already-seen elements.  This is the behaviour of
`nr.stream`'s `stream.unique` (used by `Target.transitive_dependencies`)
and of the list-property inheritance rule. -/
def dedupAux [DecidableEq α] : List α → List α → List α
  | _, [] => []
  | seen, x :: xs => if x ∈ seen then dedupAux seen xs else x :: dedupAux (x :: seen) xs

/-- Deduplication keeping first occurrences, starting from nothing seen. -/
def dedupF [DecidableEq α] (l : List α) : List α := dedupAux [] l

/-- One `Target.Dependency` object (api/__init__.py, class
`Target.Dependency`): a directed edge to a target with a `public` flag.
Python deduplicates these by object identity; an object is uniquely
identified by the target that owns it (`owner`) and its position in that
owner's `_dependencies` list (`idx`), so those two fields stand in for
the object identity. -/
structure Edge where
  owner : Nat
  idx : Nat
  target : Nat
  pub : Bool
deriving DecidableEq, Repr

/-- A dependency graph: for each target (identified by a `Nat`), its
ordered `_dependencies` list of `(target, public)` pairs. -/
def DepGraph : Type := Nat → List (Nat × Bool)

/-- The body of the inner loop of `Target.transitive_dependencies.worker`
(api/__init__.py lines 245-249), abstracted over the recursive call
`rec` (which the source always invokes as `worker(dep.target)`, i.e.
with `private=False`): for each dependency at position `i`, yield it if
it is public or `priv` holds, and then always yield the recursive
traversal of its target.  A `none` anywhere makes the whole result
`none`. -/
def goWith (rec : Nat → Option (List Edge)) (t : Nat) (priv : Bool) :
    Nat → List (Nat × Bool) → Option (List Edge)
  | _, [] => some []
  | i, (tgt, pb) :: rest =>
    match rec tgt, goWith rec t priv (i + 1) rest with
    | some sub, some tail =>
        some ((if pb || priv then [⟨t, i, tgt, pb⟩] else []) ++ sub ++ tail)
    | _, _ => none

/-- The recursive generator `worker` of
`Target.transitive_dependencies` (api/__init__.py lines 245-249), with a
fuel bound on the recursion depth.  `worker g fuel t priv` yields, for
each dependency edge of `t` in declaration order: the edge itself when
it is public or `priv` is set, followed by the full traversal of the
edge's target (with `private=False`).  Defined by `Nat.rec` so that it
reduces definitionally on concrete inputs. -/
def worker (g : DepGraph) (fuel : Nat) : Nat → Bool → Option (List Edge) :=
  Nat.rec (motive := fun _ => Nat → Bool → Option (List Edge))
    (fun _ _ => none)
    (fun _ ih t priv => goWith (fun u => ih u false) t priv 0 (g t))
    fuel

/-- `Target.transitive_dependencies` (api/__init__.py lines 237-250):
`stream.unique(worker(self, private=True))` — the worker's yield
sequence with duplicate `Dependency` objects removed, keeping first
occurrences. -/
def transitive_dependencies (g : DepGraph) (fuel : Nat) (t : Nat) : Option (List Edge) :=
  (worker g fuel t true).map dedupF

/-- The single error raise site of `Target.add_dependency`
(api/__init__.py line 199, a `RuntimeError` whose condition the spec
names `DuplicateDependency`).  The method contains no other check on the
new dependency target; in particular there is no raise site for a
self-dependency. -/
inductive AddDependencyError where
  | duplicateDependency
deriving DecidableEq, Repr

/-- A dependency entry as stored in `Target._dependencies`: the id of
the dependency target and the `public` flag. -/
structure TDep where
  target : Nat
  pub : Bool
deriving DecidableEq, Repr

/-- `Target.add_dependency` (api/__init__.py lines 187-202) acting on
the `_dependencies` list of the target `selfId`: raise if some existing
entry has the same target (identity comparison `x.target is target`,
here id equality), otherwise append the new edge at the end and return
the new list.  The `isinstance` `TypeError` check is subsumed by typing;
note that the body never compares `other` against `selfId`. -/
def add_dependency (selfId : Nat) (deps : List TDep) (other : Nat) (pb : Bool) :
    Except AddDependencyError (List TDep) :=
  if deps.any (fun d => d.target == other) then .error .duplicateDependency
  else .ok (deps ++ [⟨other, pb⟩])

/-- A target graph together with the list-property values readable from
each target's containers.

Modelled from the spec: the `craftr.api.proplib` module (`PropertySet`,
`Properties` and the property type objects) is not among the provided
sources.  Per the spec, a `Properties` container "stores only the
properties explicitly set; reading an unset property yields the type's
declared default" (the empty list for a list property), so `pub t p` /
`priv t p` give the value that `target.public_properties[p]` /
`target.properties[p]` reads — the set value, or `[]`. -/
structure PGraph where
  deps : DepGraph
  pub : Nat → String → List String
  priv : Nat → String → List String

/-- `Target.get_prop` with `inherit=True` (api/__init__.py lines
219-226): collect the target's own public value, its own private value,
then the public value of every dependency target yielded by
`transitive_dependencies`, and combine them with the list property
type's `inherit` rule.

Modelled from the spec (the rule lives in the absent `proplib`): the
inherit rule of a list-typed property "concatenate[s] and
deduplicate[s] preserving first occurrence". -/
def get_prop_inherit (G : PGraph) (fuel : Nat) (t : Nat) (name : String) :
    Option (List String) :=
  (transitive_dependencies G.deps fuel t).map (fun ds =>
    dedupF (G.pub t name ++ G.priv t name ++
      (ds.map (fun e => G.pub e.target name)).flatten))

/-- A `BuildSet`'s data (class `BuildSet` of `craftr.core.build`,
extended in api/__init__.py): named ordered input and output file
groups, substitution variables and a description.  Each group is an
ordered list of paths; the association lists keep the Python dict
insertion order. -/
structure BuildSet where
  inputs : List (String × List String)
  outputs : List (String × List String)
  vars : List (String × String)
  description : String
deriving DecidableEq, Repr

/-- The linkage of build sets (identified by ids) into the surrounding
state: the session-wide `session._build_sets` registry and the owning
operator's list of build sets. -/
structure LinkState where
  sessionSets : List Nat
  operatorSets : List Nat
deriving DecidableEq, Repr

/-- `BuildSet.fizzle` (api/__init__.py lines 366-368) removes the build
set from `session._build_sets` and then calls `super().fizzle()`.

Modelled from the spec: the base-class `fizzle` of `craftr.core.build`
is not among the provided sources; per the spec a fizzled build set is
"removed from the live set and unlinked from its operator", so the id
is also removed from the operator's list. -/
def BuildSet.fizzle (bsId : Nat) (st : LinkState) : LinkState :=
  ⟨st.sessionSets.erase bsId, st.operatorSets.erase bsId⟩

/-- The group names selected for partitioning by `BuildSet.partite`
(api/__init__.py lines 326-329): the names given, or — when none are
given — all input and output group names. -/
def selected_names (bs : BuildSet) (onSets : List String) : List String :=
  if onSets.isEmpty then bs.inputs.map Prod.fst ++ bs.outputs.map Prod.fst else onSets

/-- The input groups that participate in the partition
(api/__init__.py lines 331-332), in declaration order. -/
def partition_inputs (bs : BuildSet) (onSets : List String) : List (String × List String) :=
  bs.inputs.filter (fun p => (selected_names bs onSets).contains p.1)

/-- The input groups copied whole into every partition result. -/
def copy_inputs (bs : BuildSet) (onSets : List String) : List (String × List String) :=
  bs.inputs.filter (fun p => !(selected_names bs onSets).contains p.1)

/-- The output groups that participate in the partition
(api/__init__.py lines 333-334), in declaration order. -/
def partition_outputs (bs : BuildSet) (onSets : List String) : List (String × List String) :=
  bs.outputs.filter (fun p => (selected_names bs onSets).contains p.1)

/-- The output groups copied whole into every partition result. -/
def copy_outputs (bs : BuildSet) (onSets : List String) : List (String × List String) :=
  bs.outputs.filter (fun p => !(selected_names bs onSets).contains p.1)

/-- The cardinalities of all groups participating in the partition (the
sizes collected into `counts` at api/__init__.py lines 341-342, before
the set-deduplication). -/
def group_lengths (bs : BuildSet) (onSets : List String) : List Nat :=
  (partition_inputs bs onSets).map (fun p => p.2.length) ++
    (partition_outputs bs onSets).map (fun p => p.2.length)

/-- The i-th build set produced by `BuildSet.partite` (api/__init__.py
lines 351-362): every partitioned group shrunk to its i-th element
(`file_set([group[i]], ...)` — the provenance argument of `file_set`
is graph-visualisation metadata and is elided), every non-partitioned
group copied whole, the variables and description carried over.  The
partitioned names come first, matching the dict fill order of
`insets`/`outsets`. -/
def partitedAt (bs : BuildSet) (onSets : List String) (i : Nat) : BuildSet :=
  { inputs := (partition_inputs bs onSets).map (fun p => (p.1, [p.2.getD i default])) ++
      copy_inputs bs onSets,
    outputs := (partition_outputs bs onSets).map (fun p => (p.1, [p.2.getD i default])) ++
      copy_outputs bs onSets,
    vars := bs.vars,
    description := bs.description }

/-- The two raise sites of `BuildSet.partite`, both `ValueError` in the
source; the spec's error taxonomy names them partition errors:
`emptySelection` for "no inputs or outputs to partition" (line 337) and
`cardinalityMismatch` for "cardinality of sets that are to be
partitioned must match" (lines 343-346). -/
inductive PartitionError where
  | emptySelection
  | cardinalityMismatch
deriving DecidableEq, Repr

/-- `BuildSet.partite` (api/__init__.py lines 307-362) on the build set
`bs` with registry id `bsId`: select the partition groups, fail when no
input or no output group is selected, fail when the selected groups do
not all have the same cardinality, otherwise fizzle the source build
set (when `fizzleFlag`) and produce one build set per index.  The
Python generator is modelled eagerly: the fizzle happens before any
result is produced, and an error produces no results and leaves the
linkage state untouched (in the source both raises occur before
`self.fizzle()` and before the loop). -/
def BuildSet.partite (bsId : Nat) (bs : BuildSet) (onSets : List String)
    (fizzleFlag : Bool) (st : LinkState) :
    Except PartitionError (List BuildSet) × LinkState :=
  if (partition_inputs bs onSets).isEmpty || (partition_outputs bs onSets).isEmpty then
    (.error .emptySelection, st)
  else
    let counts := dedupF (group_lengths bs onSets)
    if counts.length ≠ 1 then (.error .cardinalityMismatch, st)
    else
      let st2 := if fizzleFlag then BuildSet.fizzle bsId st else st
      (.ok ((List.range (counts.headD 0)).map (fun i => partitedAt bs onSets i)), st2)

/-- The mutable progress object of an action (`ActionProgress`,
actions.py lines 212-318), restricted to the fields the execution state
machine touches: the `executed` flag, the recorded exit `code` (`none`
models Python `None`), whether output is buffered, and the buffer
contents (as the list of chunks printed to it). -/
structure ActionProgress where
  executed : Bool
  code : Option Int
  doBuffering : Bool
  buffer : List String
deriving DecidableEq, Repr

/-- An `Action` (actions.py lines 28-121): its ordered dependency
actions, the `skipped` marker and the optional progress object.  The
target back-reference, name and payload object are not part of the
execution state. -/
inductive BuildAction where
  | mk (deps : List BuildAction) (skipped : Bool) (progress : Option ActionProgress) : BuildAction

/-- Dependency actions of an action. -/
def BuildAction.deps : BuildAction → List BuildAction
  | .mk d _ _ => d

/-- The `skipped` marker of an action. -/
def BuildAction.skipped : BuildAction → Bool
  | .mk _ s _ => s

/-- The progress object of an action, when set. -/
def BuildAction.progress : BuildAction → Option ActionProgress
  | .mk _ _ p => p

/-- `Action.is_executed` (actions.py lines 73-79): `True` when skipped;
otherwise `False` when no progress is set, else the progress object's
`executed` flag. -/
def BuildAction.is_executed (a : BuildAction) : Bool :=
  if a.skipped then true
  else
    match a.progress with
    | none => false
    | some p => p.executed

/-- `Action.skip` (actions.py lines 59-63): unconditionally install a
fresh `ActionProgress` (default construction: not executed, no code,
buffering on, empty buffer), mark it executed with code 0, and set the
`skipped` marker.  The method performs no check of the action's current
state. -/
def BuildAction.skip (a : BuildAction) : BuildAction :=
  .mk a.deps true (some { executed := true, code := some 0, doBuffering := true, buffer := [] })

/-- The three raise sites of `Action.execute` (actions.py lines 88-96),
all `RuntimeError` in the source, named as in the spec's taxonomy:
"dependent action not executed" (lines 88-91), "progress must be set
before execute()" (lines 93-94) and "already executed" (lines 95-96). -/
inductive ActionExecError where
  | dependencyNotExecuted
  | progressNotSet
  | alreadyExecuted
deriving DecidableEq, Repr

/-- The behaviour of the payload call `self.data.execute(self,
progress)` inside `Action.execute`: it returns a code (Python `None`
modelled as `none`), raises `SystemExit` carrying a code, or raises any
other `BaseException` (the `fault` detail is the traceback text printed
to the progress buffer). -/
inductive PayloadOutcome where
  | ret (code : Option Int)
  | sysExit (code : Option Int)
  | fault (detail : String)
deriving DecidableEq, Repr

/-- `Action.execute` (actions.py lines 81-115) as a state transformer.
In source order: raise if some dependency action is not executed; raise
if no progress object is set; raise if the progress is already marked
executed.  Otherwise run the payload: a returned `None` becomes code 0
(the `else` clause), a returned code is kept, a `SystemExit` sets the
code to the exception's carried code without normalisation, any other
exception prints its traceback to the progress buffer (when buffering
is on; otherwise it goes to the real stdout) and sets code 127.  The
`finally` block records the code, marks the progress executed and the
method returns the code. -/
def BuildAction.execute (a : BuildAction) (outcome : PayloadOutcome) :
    Except ActionExecError (Option Int) × BuildAction :=
  if a.deps.any (fun d => !d.is_executed) then (.error .dependencyNotExecuted, a)
  else
    match a.progress with
    | none => (.error .progressNotSet, a)
    | some p =>
      if p.executed then (.error .alreadyExecuted, a)
      else
        let code : Option Int :=
          match outcome with
          | .ret c => some (c.getD 0)
          | .sysExit c => c
          | .fault _ => some 127
        let buf : List String :=
          match outcome with
          | .fault d => if p.doBuffering then p.buffer ++ [d] else p.buffer
          | _ => p.buffer
        (.ok code, .mk a.deps a.skipped (some { p with executed := true, code := code, buffer := buf }))

/-- `os.path.getmtime` with a fallback, as in the local `getmtime` helper
of `System.is_skippable` (actions.py lines 391-395): the file system is
a partial map from paths to modification times, and a missing file
yields the supplied default. -/
def getmtimeD (fs : String → Option Nat) (p : String) (d : Nat) : Nat :=
  (fs p).getD d

/-- `System.is_skippable` (actions.py lines 383-398): with no declared
inputs, skippable iff there are outputs and they all exist; with inputs
but no declared outputs, never skippable ("No way to determine if the
action needs to be re-run, always run it"); otherwise compare the
newest input mtime (a missing input counts as `now + 1000`) against the
oldest output mtime (a missing output counts as 0) and be skippable iff
the former is strictly smaller.  `max`/`min` of the nonempty Python
sequences are folds. -/
def System.is_skippable (fs : String → Option Nat) (now : Nat)
    (input_files output_files : List String) : Bool :=
  match input_files with
  | [] =>
    match output_files with
    | [] => false
    | _ => output_files.all (fun x => (fs x).isSome)
  | _ =>
    match output_files with
    | [] => false
    | o :: os =>
      let ifiles := (input_files.map (fun x => getmtimeD fs x (now + 1000))).foldl Nat.max 0
      let ofiles := (os.map (fun x => getmtimeD fs x 0)).foldl Nat.min (getmtimeD fs o 0)
      decide (ifiles < ofiles)

/-- The public/private property containers of one target as association
lists (insertion-ordered), as acted on by the `properties` build-script
function. -/
structure PropState where
  pubProps : List (String × List String)
  privProps : List (String × List String)
deriving DecidableEq, Repr

/-- Reading a set property from a container (`Properties.is_set` /
lookup): the stored value, or `none` when the property was never set
(an undeclared name is never set). -/
def lookupProp (l : List (String × List String)) (k : String) : Option (List String) :=
  (l.find? (fun p => p.1 == k)).map Prod.snd

/-- Storing a property value in a container: overwrite the existing
entry or append a new one. -/
def setProp (l : List (String × List String)) (k : String) (v : List String) :
    List (String × List String) :=
  if l.any (fun p => p.1 == k) then l.map (fun p => if p.1 == k then (k, v) else p)
  else l ++ [(k, v)]

/-- Key parsing of the `properties` function (api/__init__.py lines
513-518): a leading `@` marks the value public, a trailing `+` marks it
as appending; both markers are stripped.  The character list of the
string is used so the operations reduce definitionally. -/
def parseKeyProps (k : String) : String × Bool × Bool :=
  let cs := k.data
  let pb := cs.head? == some '@'
  let cs1 := if pb then cs.drop 1 else cs
  let ap := cs1.getLast? == some '+'
  let cs2 := if ap then cs1.dropLast else cs1
  (String.mk cs2, pb, ap)

/-- The `props.setdefault(key, []).append(...)` grouping of the
`properties` function: operations are grouped per parsed key, keys in
first-encounter order, operations per key in encounter order. -/
def addOp (acc : List (String × List (List String × Bool × Bool))) (k : String)
    (v : List String × Bool × Bool) : List (String × List (List String × Bool × Bool)) :=
  if acc.any (fun p => p.1 == k) then
    acc.map (fun p => if p.1 == k then (p.1, p.2 ++ [v]) else p)
  else acc ++ [(k, [v])]

/-- Grouping of all entries of the `_props` dictionary argument. -/
def groupOps (entries : List (String × List String)) :
    List (String × List (List String × Bool × Bool)) :=
  entries.foldl (fun acc e =>
    let kpa := parseKeyProps e.1
    addOp acc kpa.1 (e.2, kpa.2.1, kpa.2.2)) []

/-- One `dest[key] = value` step of the `properties` function
(api/__init__.py lines 526-536): pick the public or private container;
when appending and the key is already set, combine the old and new
values with the list type's inherit rule (modelled from the spec:
concatenate and deduplicate keeping first occurrences; the `coerce`
call is the identity on an already-list value); then set the value —
but when the name is not declared in the `PropertySet`, the raised
`NoSuchProperty` is caught, a warning line is printed (collected here
in the warning list) and processing continues with the value dropped. -/
def applyOp (decl : List String) (acc : PropState × List String) (k : String)
    (op : List String × Bool × Bool) : PropState × List String :=
  let v0 := op.1
  let pb := op.2.1
  let ap := op.2.2
  let st := acc.1
  let dest := if pb then st.pubProps else st.privProps
  let v := match (if ap then lookupProp dest k else none) with
    | some old => dedupF (old ++ v0)
    | none => v0
  if decl.contains k then
    let dest2 := setProp dest k v
    (if pb then { st with pubProps := dest2 } else { st with privProps := dest2 }, acc.2)
  else
    (st, acc.2 ++ [k])

/-- The `properties` build-script function (api/__init__.py lines
494-536), restricted to the `_props` dictionary parameter (the
keyword-argument path differs only in marker spelling): parse and group
the entries, then apply every operation in order against the target's
containers, given the names declared in the session's target
`PropertySet`.  Returns the new containers and the list of warned-about
unknown property names. -/
def properties (decl : List String) (st : PropState)
    (entries : List (String × List String)) : PropState × List String :=
  (groupOps entries).foldl (fun acc kops =>
    kops.2.foldl (fun acc2 op => applyOp decl acc2 kops.1 op) acc) (st, [])

/-- Reachability along dependency edges (of either visibility), the
relation the `worker` recursion follows: `worker` recurses into
`dep.target` for every dependency edge, public or private. -/
inductive Reaches (g : DepGraph) : Nat → Nat → Prop where
  | refl (x : Nat) : Reaches g x x
  | head {x y z : Nat} {pb : Bool} (hxy : (y, pb) ∈ g x) (hyz : Reaches g y z) :
      Reaches g x z

/-- A diamond dependency graph: target 0 depends publicly on 1 and 2,
both of which depend publicly on 3. -/
def diamondGraph : DepGraph := fun t =>
  if t = 0 then [(1, true), (2, true)]
  else if t = 1 then [(3, true)]
  else if t = 2 then [(3, true)]
  else []

/-- The edge sequence `transitive_dependencies` produces on
`diamondGraph` from target 0: target 3 is reached twice, through two
distinct `Dependency` objects. -/
def diamondEdges : List Edge :=
  [⟨0, 0, 1, true⟩, ⟨1, 0, 3, true⟩, ⟨0, 1, 2, true⟩, ⟨2, 0, 3, true⟩]

/-- A two-target dependency cycle: 0 ↔ 1, both edges public. -/
def cycleGraph : DepGraph := fun t =>
  if t = 0 then [(1, true)]
  else if t = 1 then [(0, true)]
  else []

/-- The dependency chain of the spec's end-to-end scenario: A(0) →
B(1) → C(2), both edges public; `defines` is `["A"]` publicly on A,
`["X"]` publicly and `["P"]` privately on B, `["X", "C"]` publicly on
C. -/
def chainGraph : PGraph :=
  { deps := fun t =>
      if t = 0 then [(1, true)]
      else if t = 1 then [(2, true)]
      else [],
    pub := fun t _ =>
      if t = 0 then ["A"]
      else if t = 1 then ["X"]
      else if t = 2 then ["X", "C"]
      else [],
    priv := fun t _ => if t = 1 then ["P"] else [] }

/-- The edges of `chainGraph` from target 0. -/
def chainEdges : List Edge := [⟨0, 0, 1, true⟩, ⟨1, 0, 2, true⟩]

/-- The build set of the spec's partitioning scenario: one input group
`in = [a.c, b.c]` and one output group `out = [a.o, b.o]`. -/
def bsPair : BuildSet :=
  { inputs := [("in", ["a.c", "b.c"])],
    outputs := [("out", ["a.o", "b.o"])],
    vars := [],
    description := "compile" }

/-- A build set whose input group has two files but whose output group
has only one. -/
def bsMismatch : BuildSet :=
  { inputs := [("in", ["a.c", "b.c"])],
    outputs := [("out", ["a.o"])],
    vars := [],
    description := "compile" }

/-- A freshly constructed, not yet executed progress object. -/
def pendingProgress : ActionProgress :=
  { executed := false, code := none, doBuffering := true, buffer := [] }

/-- An action that is neither executed nor skipped (no progress set). -/
def unexecutedDep : BuildAction := .mk [] false none

/-- An action whose only dependency is not executed, itself ready to
run. -/
def actionBlocked : BuildAction := .mk [unexecutedDep] false (some pendingProgress)

/-- A dependency-free pending action with its progress installed. -/
def actionReady : BuildAction := .mk [] false (some pendingProgress)

/-- An action that already executed with recorded exit code 5. -/
def actionDone : BuildAction :=
  .mk [] false (some { executed := true, code := some 5, doBuffering := true, buffer := [] })

/-- A file system where the input `a.c` (mtime 10) is strictly older
than the output `a.o` (mtime 20) and nothing else exists. -/
def mtimesEx : String → Option Nat := fun p =>
  if p = "a.c" then some 10 else if p = "a.o" then some 20 else none

/-- Membership in the deduplicated list: an element survives iff it was
in the input and not among the already-seen elements. -/
theorem mem_dedupAux [DecidableEq α] (a : α) :
    ∀ (xs seen : List α), a ∈ dedupAux seen xs ↔ a ∈ xs ∧ a ∉ seen := by
  intro xs
  induction xs with
  | nil => intro seen; simp [dedupAux]
  | cons x xs ih =>
    intro seen
    by_cases hx : x ∈ seen
    · rw [dedupAux, if_pos hx, ih]
      constructor
      · rintro ⟨h1, h2⟩; exact ⟨List.mem_cons_of_mem x h1, h2⟩
      · rintro ⟨h1, h2⟩
        rcases List.mem_cons.mp h1 with rfl | h1
        · exact absurd hx h2
        · exact ⟨h1, h2⟩
    · rw [dedupAux, if_neg hx]
      constructor
      · intro h
        rcases List.mem_cons.mp h with rfl | h
        · exact ⟨List.mem_cons_self a xs, hx⟩
        · obtain ⟨h1, h2⟩ := (ih (x :: seen)).mp h
          exact ⟨List.mem_cons_of_mem x h1,
            fun hs => h2 (List.mem_cons_of_mem x hs)⟩
      · rintro ⟨h1, h2⟩
        rcases List.mem_cons.mp h1 with rfl | h1
        · exact List.mem_cons_self a _
        · by_cases hax : a = x
          · subst hax; exact List.mem_cons_self a _
          · exact List.mem_cons_of_mem x ((ih (x :: seen)).mpr
              ⟨h1, fun hs => (List.mem_cons.mp hs).elim hax h2⟩)

/-- The deduplicated list never repeats an element. -/
theorem nodup_dedupAux [DecidableEq α] :
    ∀ (xs seen : List α), (dedupAux seen xs).Nodup := by
  intro xs
  induction xs with
  | nil => intro seen; simp [dedupAux]
  | cons x xs ih =>
    intro seen
    by_cases hx : x ∈ seen
    · rw [dedupAux, if_pos hx]; exact ih seen
    · rw [dedupAux, if_neg hx]
      refine List.nodup_cons.mpr ⟨fun hmem => ?_, ih (x :: seen)⟩
      exact ((mem_dedupAux x xs (x :: seen)).mp hmem).2 (List.mem_cons_self x seen)

/-- Membership is preserved by first-occurrence deduplication. -/
theorem mem_dedupF [DecidableEq α] (a : α) (l : List α) : a ∈ dedupF l ↔ a ∈ l := by
  rw [dedupF, mem_dedupAux]; simp

/-- First-occurrence deduplication yields a duplicate-free list. -/
theorem nodup_dedupF [DecidableEq α] (l : List α) : (dedupF l).Nodup :=
  nodup_dedupAux l []

/-- Deduplicating a list when every element is already seen yields
nothing. -/
theorem dedupAux_all_seen [DecidableEq α] :
    ∀ (xs seen : List α), (∀ x ∈ xs, x ∈ seen) → dedupAux seen xs = [] := by
  intro xs
  induction xs with
  | nil => intro seen _; rfl
  | cons x xs ih =>
    intro seen h
    rw [dedupAux, if_pos (h x (List.mem_cons_self x xs))]
    exact ih seen (fun y hy => h y (List.mem_cons_of_mem x hy))

/-- Deduplicating a nonempty constant list yields the singleton. -/
theorem dedupF_const [DecidableEq α] (l : List α) (n : α) (h0 : l ≠ [])
    (h : ∀ x ∈ l, x = n) : dedupF l = [n] := by
  cases l with
  | nil => exact absurd rfl h0
  | cons x xs =>
    have hx : x = n := h x (List.mem_cons_self x xs)
    subst hx
    rw [dedupF, dedupAux, if_neg (List.not_mem_nil x)]
    congr 1
    exact dedupAux_all_seen xs [x] (fun y hy =>
      by rw [h y (List.mem_cons_of_mem x hy), h x (List.mem_cons_self x xs)]; exact List.mem_cons_self _ _)

/-- A list with two distinct members does not deduplicate to a
singleton. -/
theorem dedupF_length_ne_one [DecidableEq α] {l : List α} {p q : α}
    (hp : p ∈ l) (hq : q ∈ l) (hpq : p ≠ q) : (dedupF l).length ≠ 1 := by
  intro hlen
  obtain ⟨a, ha⟩ := List.length_eq_one.mp hlen
  have hp2 : p ∈ dedupF l := (mem_dedupF p l).mpr hp
  have hq2 : q ∈ dedupF l := (mem_dedupF q l).mpr hq
  rw [ha] at hp2 hq2
  exact hpq ((List.mem_singleton.mp hp2).trans (List.mem_singleton.mp hq2).symm)

/-- C3 counterexample: `add_dependency` performs no self-dependency
check.  Calling it on target 0 with an empty dependency list and target
0 itself as the new dependency succeeds and appends the self-edge,
instead of failing with `SelfDependencyError` as the claim states. -/
theorem add_dependency_self_cex :
    add_dependency 0 [] 0 true = .ok [⟨0, true⟩] := rfl

/-- C3 (amended): `add_dependency` fails with `DuplicateDependency`
exactly when an edge to `other` already exists, and on success appends
the new edge after all existing edges; it performs no self-dependency
check, so adding the target itself succeeds whenever no edge to it
exists yet. -/
theorem add_dependency_amended :
    (∀ (selfId : Nat) (deps : List TDep) (other : Nat) (pb : Bool),
        (∃ d ∈ deps, d.target = other) →
        add_dependency selfId deps other pb = .error .duplicateDependency) ∧
    (∀ (selfId : Nat) (deps : List TDep) (other : Nat) (pb : Bool),
        (∀ d ∈ deps, d.target ≠ other) →
        add_dependency selfId deps other pb = .ok (deps ++ [⟨other, pb⟩])) := by
  constructor
  · rintro selfId deps other pb ⟨d, hd, ht⟩
    unfold add_dependency
    rw [if_pos]
    exact List.any_eq_true.mpr ⟨d, hd, by simp [ht]⟩
  · intro selfId deps other pb h
    unfold add_dependency
    rw [if_neg]
    simp only [List.any_eq_true, beq_iff_eq, not_exists]
    intro d
    simp only [not_and]
    exact h d

/-- C3 witness: on a target with one existing edge to target 1, adding
target 1 again fails as a duplicate, while adding target 2 appends. -/
theorem add_dependency_amended_witness :
    add_dependency 0 [⟨1, true⟩] 1 false = .error .duplicateDependency ∧
    add_dependency 0 [⟨1, true⟩] 2 false = .ok [⟨1, true⟩, ⟨2, false⟩] := by
  constructor
  · exact add_dependency_amended.1 0 [⟨1, true⟩] 1 false
      ⟨⟨1, true⟩, List.mem_singleton.mpr rfl, rfl⟩
  · exact add_dependency_amended.2 0 [⟨1, true⟩] 2 false
      (by intro d hd; rw [List.mem_singleton.mp hd]; decide)

/-- When every dependency action is executed, the guard loop of
`Action.execute` finds nothing to complain about. -/
theorem deps_any_not_executed_eq_false (a : BuildAction)
    (hd : a.deps.all (fun d => d.is_executed) = true) :
    (a.deps.any fun d => !d.is_executed) = false := by
  rw [List.any_eq_false]
  intro d hdm
  simp [List.all_eq_true.mp hd d hdm]

/-- C6: executing an action while some dependency action is neither
executed nor skipped fails with the "dependent action not executed"
error and leaves the action completely unchanged (the raise happens
before any state mutation): no exit code is recorded and the action
does not become executed. -/
theorem execute_dependency_not_executed (a : BuildAction) (outcome : PayloadOutcome)
    (h : ∃ d ∈ a.deps, d.is_executed = false) :
    a.execute outcome = (.error .dependencyNotExecuted, a) := by
  obtain ⟨d, hd, hde⟩ := h
  unfold BuildAction.execute
  rw [if_pos]
  exact List.any_eq_true.mpr ⟨d, hd, by simp [hde]⟩

/-- C6 witness: a pending action whose single dependency has never run
is rejected with the dependency error and left untouched. -/
theorem execute_dependency_not_executed_witness :
    actionBlocked.execute (.ret none) = (.error .dependencyNotExecuted, actionBlocked) :=
  execute_dependency_not_executed actionBlocked (.ret none)
    ⟨unexecutedDep, by simp [actionBlocked, BuildAction.deps], rfl⟩

/-- C7 counterexample: a payload that raises `SystemExit` with no code
(Python `sys.exit()`) completes `Action.execute` with the recorded and
returned code `None` — not the integer 127 and not any integer at all —
so not every completed execution records an integer exit code, contrary
to the claim. -/
theorem execute_sysexit_cex :
    (actionReady.execute (.sysExit none)).1 = .ok none ∧
    (actionReady.execute (.sysExit none)).2.progress =
      some { executed := true, code := none, doBuffering := true, buffer := [] } :=
  ⟨rfl, rfl⟩

/-- C7 (amended): on an action whose dependencies are all executed and
whose progress is pending, `execute` never propagates a payload fault:
any fault other than `SystemExit` is recorded as exit code 127 with the
fault detail appended to the progress buffer (when buffering is on), a
payload result of `None` is recorded as success code 0, an integer
result is recorded as-is, and a `SystemExit` records the exception's
carried code without normalisation (so `None` is possible there); in
every case the progress is marked executed and the recorded code is
returned. -/
theorem execute_payload_outcomes (a : BuildAction) (p : ActionProgress)
    (outcome : PayloadOutcome) (hp : a.progress = some p) (hpe : p.executed = false)
    (hd : a.deps.all (fun d => d.is_executed) = true) :
    ∃ q : ActionProgress,
      (a.execute outcome).2 = .mk a.deps a.skipped (some q) ∧
      q.executed = true ∧
      (a.execute outcome).1 = .ok q.code ∧
      (∀ d, outcome = .fault d → q.code = some 127 ∧
        (p.doBuffering = true → q.buffer = p.buffer ++ [d])) ∧
      (outcome = .ret none → q.code = some 0) ∧
      (∀ c, outcome = .ret (some c) → q.code = some c) ∧
      (∀ c, outcome = .sysExit c → q.code = c) := by
  have hany := deps_any_not_executed_eq_false a hd
  cases outcome with
  | ret c =>
    refine ⟨{ p with executed := true, code := some (c.getD 0) }, ?_, rfl, ?_, ?_, ?_, ?_, ?_⟩
    · simp [BuildAction.execute, hany, hp, hpe]
    · simp [BuildAction.execute, hany, hp, hpe]
    · intro d h; exact absurd h (by simp)
    · intro h; cases h; rfl
    · intro c2 h; cases h; rfl
    · intro c2 h; exact absurd h (by simp)
  | sysExit c =>
    refine ⟨{ p with executed := true, code := c }, ?_, rfl, ?_, ?_, ?_, ?_, ?_⟩
    · simp [BuildAction.execute, hany, hp, hpe]
    · simp [BuildAction.execute, hany, hp, hpe]
    · intro d h; exact absurd h (by simp)
    · intro h; exact absurd h (by simp)
    · intro c2 h; exact absurd h (by simp)
    · intro c2 h; cases h; rfl
  | fault d =>
    refine ⟨{ p with executed := true, code := some 127, buffer := if p.doBuffering then p.buffer ++ [d] else p.buffer }, ?_, rfl, ?_, ?_, ?_, ?_, ?_⟩
    · simp [BuildAction.execute, hany, hp, hpe]
    · simp [BuildAction.execute, hany, hp, hpe]
    · intro d2 h; cases h; exact ⟨rfl, fun hb => by simp [hb]⟩
    · intro h; exact absurd h (by simp)
    · intro c2 h; exact absurd h (by simp)
    · intro c2 h; exact absurd h (by simp)

/-- C7 witness: a ready action with a faulting payload records 127 and
the fault detail in the buffer, marked executed. -/
theorem execute_payload_outcomes_witness :
    ∃ q : ActionProgress,
      (actionReady.execute (.fault "boom")).2 = .mk [] false (some q) ∧
      q.executed = true ∧ q.code = some 127 ∧ q.buffer = ["boom"] := by
  obtain ⟨q, h1, h2, h3, h4, h5, h6, h7⟩ :=
    execute_payload_outcomes actionReady pendingProgress (.fault "boom") rfl rfl rfl
  obtain ⟨hc, hb⟩ := h4 "boom" rfl
  exact ⟨q, h1, h2, hc, by rw [hb rfl]; rfl⟩

/-- C8 counterexample: `skip` on an action that already executed with
recorded exit code 5 does not fail with `AlreadyExecutedError`; it
succeeds and replaces the progress with a fresh one recording exit code
0, altering the recorded state. -/
theorem skip_nonpending_cex :
    actionDone.progress =
      some { executed := true, code := some 5, doBuffering := true, buffer := [] } ∧
    actionDone.skip =
      .mk [] true (some { executed := true, code := some 0, doBuffering := true, buffer := [] }) :=
  ⟨rfl, rfl⟩

/-- C8 (amended): re-invoking `execute` on an already-executed action
(with its dependencies executed, so the dependency guard passes) fails
with `AlreadyExecutedError` and leaves the action unchanged; `skip`,
however, performs no state check at all: on any action it succeeds,
unconditionally installing a fresh executed progress with exit code 0
and setting the skipped marker, discarding any previously recorded
exit code. -/
theorem execute_skip_amended :
    (∀ (a : BuildAction) (p : ActionProgress) (outcome : PayloadOutcome),
        a.progress = some p → p.executed = true →
        a.deps.all (fun d => d.is_executed) = true →
        a.execute outcome = (.error .alreadyExecuted, a)) ∧
    (∀ a : BuildAction,
        a.skip = .mk a.deps true
          (some { executed := true, code := some 0, doBuffering := true, buffer := [] })) := by
  constructor
  · intro a p outcome hp hpe hd
    have hany := deps_any_not_executed_eq_false a hd
    simp [BuildAction.execute, hany, hp, hpe]
  · intro a; rfl

/-- C8 witness: the executed action `actionDone` is rejected by
`execute` but silently reset by `skip`. -/
theorem execute_skip_amended_witness :
    actionDone.execute (.ret none) = (.error .alreadyExecuted, actionDone) ∧
    actionDone.skip =
      .mk [] true (some { executed := true, code := some 0, doBuffering := true, buffer := [] }) :=
  ⟨execute_skip_amended.1 actionDone
      { executed := true, code := some 5, doBuffering := true, buffer := [] }
      (.ret none) rfl rfl rfl,
    execute_skip_amended.2 actionDone⟩

/-- C10: evaluating the `properties` function on a target whose
`PropertySet` declares only `foo`, with the single entry
`{'bar': ['x']}`, does not abort: the raised `NoSuchProperty` is caught
inside the loop (marked `# TODO` in the source), a warning for `bar` is
emitted, both property containers stay empty, and the value `['x']` is
silently dropped — contradicting the claim (and the spec's fail-fast
error taxonomy), which this development records as a bug in the code. -/
theorem properties_unknown_dropped :
    properties ["foo"] ⟨[], []⟩ [("bar", ["x"])] = (⟨[], []⟩, ["bar"]) := rfl

/-- With a nonempty input and output selection, the empty-selection
guard of `partite` does not fire. -/
theorem partite_selection_nonempty {bs : BuildSet} {onSets : List String}
    (h1 : partition_inputs bs onSets ≠ []) (h2 : partition_outputs bs onSets ≠ []) :
    ((partition_inputs bs onSets).isEmpty || (partition_outputs bs onSets).isEmpty) = false := by
  simp [List.isEmpty_iff, h1, h2]

/-- C4: partitioning a build set whose selected input and output groups
all have the same cardinality `n ≥ 1` (with `fizzle`) succeeds with
exactly `n` build sets, the i-th of which shrinks every partitioned
group to its i-th element and copies every non-partitioned group whole
(`partitedAt`); the source build set is first removed from the session
registry and unlinked from its operator, so it is no longer reachable
from the operator when the results are produced. -/
theorem partite_equal_cardinality (bsId : Nat) (bs : BuildSet) (onSets : List String)
    (st : LinkState) (n : Nat)
    (h1 : partition_inputs bs onSets ≠ [])
    (h2 : partition_outputs bs onSets ≠ [])
    (hN : ∀ m ∈ group_lengths bs onSets, m = n)
    (hn : 1 ≤ n)
    (honce : st.operatorSets.count bsId ≤ 1) :
    ∃ results st2,
      BuildSet.partite bsId bs onSets true st = (.ok results, st2) ∧
      results.length = n ∧
      (∀ i, i < n → results.get? i = some (partitedAt bs onSets i)) ∧
      st2.sessionSets = st.sessionSets.erase bsId ∧
      st2.operatorSets = st.operatorSets.erase bsId ∧
      bsId ∉ st2.operatorSets := by
  have hgl : group_lengths bs onSets ≠ [] := by
    intro h
    exact h1 (List.map_eq_nil.mp (List.append_eq_nil.mp h).1)
  have hcounts : dedupF (group_lengths bs onSets) = [n] := dedupF_const _ n hgl hN
  have hie := partite_selection_nonempty h1 h2
  refine ⟨(List.range n).map (fun i => partitedAt bs onSets i), BuildSet.fizzle bsId st,
    ?_, ?_, ?_, rfl, rfl, ?_⟩
  · simp [BuildSet.partite, hie, hcounts]
  · simp
  · intro i hi
    rw [List.get?_map, List.get?_range hi]
    rfl
  · have hco : (st.operatorSets.erase bsId).count bsId = st.operatorSets.count bsId - 1 :=
      List.count_erase_self bsId st.operatorSets
    have : (st.operatorSets.erase bsId).count bsId = 0 := by omega
    exact List.count_eq_zero.mp this

/-- C4 witness: the spec scenario — `in = [a.c, b.c]`, `out = [a.o,
b.o]`, partitioned over all groups — yields exactly two build sets and
the source (id 7) disappears from its operator. -/
theorem partite_equal_cardinality_witness :
    ∃ results st2,
      BuildSet.partite 7 bsPair [] true ⟨[7], [7]⟩ = (.ok results, st2) ∧
      results.length = 2 ∧
      results.get? 0 = some (partitedAt bsPair [] 0) ∧
      7 ∉ st2.operatorSets := by
  obtain ⟨results, st2, ha, hb, hc, _, _, hf⟩ :=
    partite_equal_cardinality 7 bsPair [] ⟨[7], [7]⟩ 2 (by decide) (by decide)
      (by decide) (by decide) (by decide)
  exact ⟨results, st2, ha, hb, hc 0 (by decide), hf⟩

/-- C5: when the selected groups do not all share one cardinality (two
of the selected group lengths differ), `partite` fails with the
cardinality-mismatch partition error before fizzling anything: the
linkage state is returned unchanged and no partition result is
produced. -/
theorem partite_cardinality_mismatch (bsId : Nat) (bs : BuildSet) (onSets : List String)
    (fz : Bool) (st : LinkState) (p q : Nat)
    (h1 : partition_inputs bs onSets ≠ [])
    (h2 : partition_outputs bs onSets ≠ [])
    (hp : p ∈ group_lengths bs onSets) (hq : q ∈ group_lengths bs onSets)
    (hpq : p ≠ q) :
    BuildSet.partite bsId bs onSets fz st = (.error .cardinalityMismatch, st) := by
  have hie := partite_selection_nonempty h1 h2
  have hlen := dedupF_length_ne_one hp hq hpq
  simp [BuildSet.partite, hie, hlen]

/-- C5 witness: partitioning `in = [a.c, b.c]` against `out = [a.o]`
fails with the cardinality mismatch and leaves the linkage (id 7 still
linked) untouched. -/
theorem partite_cardinality_mismatch_witness :
    BuildSet.partite 7 bsMismatch [] true ⟨[7], [7]⟩ =
      (.error .cardinalityMismatch, ⟨[7], [7]⟩) :=
  partite_cardinality_mismatch 7 bsMismatch [] true ⟨[7], [7]⟩ 2 1
    (by decide) (by decide) (by decide) (by decide) (by decide)

/-- C2: when the dependency traversal from target `t` terminates with
the edge sequence `ds`, the inherited read of a list property is
exactly the concatenation — deduplicated keeping first occurrences — of
(a) the target's own public value, (b) its own private value, and (c)
the public value of each traversed dependency's target in traversal
(declaration) order; consequently a value appears in the inherited read
iff it is in one of those public/own containers, so a value set only in
a dependency's private container never appears. -/
theorem get_prop_inherit_spec (G : PGraph) (fuel t : Nat) (name : String)
    (ds : List Edge) (h : transitive_dependencies G.deps fuel t = some ds) :
    ∃ v, get_prop_inherit G fuel t name = some v ∧
      v = dedupF (G.pub t name ++ G.priv t name ++
        (ds.map (fun e => G.pub e.target name)).flatten) ∧
      v.Nodup ∧
      (∀ x, x ∈ v ↔ x ∈ G.pub t name ∨ x ∈ G.priv t name ∨
        ∃ e ∈ ds, x ∈ G.pub e.target name) := by
  refine ⟨dedupF (G.pub t name ++ G.priv t name ++
      (ds.map (fun e => G.pub e.target name)).flatten), ?_, rfl, nodup_dedupF _, ?_⟩
  · rw [get_prop_inherit, h]
    rfl
  · intro x
    rw [mem_dedupF]
    simp only [List.mem_append, List.mem_flatten, List.mem_map, or_assoc]
    constructor
    · rintro (h1 | h1 | ⟨l, ⟨e, he, rfl⟩, hx⟩)
      · exact Or.inl h1
      · exact Or.inr (Or.inl h1)
      · exact Or.inr (Or.inr ⟨e, he, hx⟩)
    · rintro (h1 | h1 | ⟨e, he, hx⟩)
      · exact Or.inl h1
      · exact Or.inr (Or.inl h1)
      · exact Or.inr (Or.inr ⟨G.pub e.target name, ⟨e, he, rfl⟩, hx⟩)

/-- C2 witness: on the chain A(0) → B(1) → C(2) with public `defines`
values `["A"]`, `["X"]`, `["X","C"]` and private value `["P"]` on B,
the inherited read of A contains the public `X` but not the private
`P`. -/
theorem get_prop_inherit_spec_witness :
    ∃ v, get_prop_inherit chainGraph 5 0 "defines" = some v ∧
      "X" ∈ v ∧ "P" ∉ v := by
  obtain ⟨v, hv, hveq, hnd, hmem⟩ :=
    get_prop_inherit_spec chainGraph 5 0 "defines" chainEdges rfl
  refine ⟨v, hv, ?_, ?_⟩
  · exact (hmem "X").mpr (Or.inr (Or.inr ⟨⟨0, 0, 1, true⟩, by decide, by decide⟩))
  · intro hP
    rcases (hmem "P").mp hP with h | h | ⟨e, he, h⟩
    · exact absurd h (by decide)
    · exact absurd h (by decide)
    · have he2 : e = ⟨0, 0, 1, true⟩ ∨ e = ⟨1, 0, 2, true⟩ := by
        simpa [chainEdges] using he
      rcases he2 with rfl | rfl
      · exact absurd h (by decide)
      · exact absurd h (by decide)

/-- The worker yields nothing when out of fuel (models the traversal
hitting the recursion limit). -/
theorem worker_zero (g : DepGraph) (t : Nat) (b : Bool) : worker g 0 t b = none := rfl

/-- Unfolding of the worker at positive fuel: process the dependency
list of `t`, recursing with one unit of fuel less. -/
theorem worker_succ (g : DepGraph) (fuel t : Nat) (b : Bool) :
    worker g (fuel + 1) t b = goWith (fun u => worker g fuel u false) t b 0 (g t) := rfl

/-- If the recursive call diverges on some listed dependency target,
the whole loop diverges. -/
theorem goWith_none {rec : Nat → Option (List Edge)} {tgt : Nat} {pb : Bool} :
    ∀ (l : List (Nat × Bool)) (t : Nat) (priv : Bool) (i : Nat),
      (tgt, pb) ∈ l → rec tgt = none → goWith rec t priv i l = none := by
  intro l
  induction l with
  | nil => intro t priv i h; exact absurd h (List.not_mem_nil _)
  | cons hd tl ih =>
    intro t priv i hmem hnone
    obtain ⟨a, b2⟩ := hd
    rcases List.mem_cons.mp hmem with heq | htl
    · injection heq with h1 h2
      subst h1
      simp [goWith, hnone]
    · rw [goWith, ih t priv (i + 1) htl hnone]
      cases rec a <;> rfl

/-- A successful loop implies a successful recursive call for every
listed dependency target. -/
theorem goWith_some_sub {rec : Nat → Option (List Edge)} :
    ∀ (l : List (Nat × Bool)) (t : Nat) (priv : Bool) (i : Nat) (res : List Edge)
      (tgt : Nat) (pb : Bool),
      goWith rec t priv i l = some res → (tgt, pb) ∈ l →
      ∃ sub, rec tgt = some sub := by
  intro l
  induction l with
  | nil => intro t priv i res tgt pb _ h; exact absurd h (List.not_mem_nil _)
  | cons hd tl ih =>
    intro t priv i res tgt pb hgo hmem
    obtain ⟨a, b2⟩ := hd
    rw [goWith] at hgo
    cases hr : rec a with
    | none => rw [hr] at hgo; exact absurd hgo (by simp)
    | some sub =>
      cases hg : goWith rec t priv (i + 1) tl with
      | none => rw [hr, hg] at hgo; exact absurd hgo (by simp)
      | some tail =>
        rcases List.mem_cons.mp hmem with heq | htl
        · have : tgt = a := ((Prod.mk.injEq _ _ _ _).mp heq).1
          exact ⟨sub, this ▸ hr⟩
        · exact ih t priv (i + 1) tail tgt pb hg htl

/-- Provenance of every edge yielded by the loop: it is either one of
the owner's own listed edges, or came out of a successful recursive
call on a listed dependency target. -/
theorem goWith_mem {rec : Nat → Option (List Edge)} :
    ∀ (l : List (Nat × Bool)) (t : Nat) (priv : Bool) (i : Nat) (res : List Edge),
      goWith rec t priv i l = some res → ∀ e ∈ res,
      (e.owner = t ∧ (e.target, e.pub) ∈ l) ∨
      (∃ tgt pb sub, (tgt, pb) ∈ l ∧ rec tgt = some sub ∧ e ∈ sub) := by
  intro l
  induction l with
  | nil =>
    intro t priv i res hgo e he
    rw [goWith] at hgo
    cases hgo
    exact absurd he (List.not_mem_nil _)
  | cons hd tl ih =>
    intro t priv i res hgo e he
    obtain ⟨a, b2⟩ := hd
    rw [goWith] at hgo
    cases hr : rec a with
    | none => rw [hr] at hgo; exact absurd hgo (by simp)
    | some sub =>
      cases hg : goWith rec t priv (i + 1) tl with
      | none => rw [hr, hg] at hgo; exact absurd hgo (by simp)
      | some tail =>
        rw [hr, hg] at hgo
        have hres : res = (if b2 || priv then [⟨t, i, a, b2⟩] else []) ++ sub ++ tail := by
          cases hgo; rfl
        subst hres
        rcases List.mem_append.mp he with h1 | htail
        · rcases List.mem_append.mp h1 with hyield | hsub
          · by_cases hb : (b2 || priv) = true
            · rw [if_pos hb] at hyield
              have : e = ⟨t, i, a, b2⟩ := List.mem_singleton.mp hyield
              subst this
              exact Or.inl ⟨rfl, List.mem_cons_self _ _⟩
            · rw [if_neg hb] at hyield
              exact absurd hyield (List.not_mem_nil _)
          · exact Or.inr ⟨a, b2, sub, List.mem_cons_self _ _, hr, hsub⟩
        · rcases ih t priv (i + 1) tail hg e htail with ⟨ho, hmem⟩ | ⟨tgt, pb, sub2, hmem, hrec, hesub⟩
          · exact Or.inl ⟨ho, List.mem_cons_of_mem _ hmem⟩
          · exact Or.inr ⟨tgt, pb, sub2, List.mem_cons_of_mem _ hmem, hrec, hesub⟩

/-- Every edge yielded by a successful worker run is an edge of a
target reachable from the root. -/
theorem worker_mem (g : DepGraph) :
    ∀ (fuel t : Nat) (b : Bool) (res : List Edge),
      worker g fuel t b = some res → ∀ e ∈ res,
      Reaches g t e.owner ∧ (e.target, e.pub) ∈ g e.owner := by
  intro fuel
  induction fuel with
  | zero =>
    intro t b res h
    rw [worker_zero] at h
    exact absurd h (by simp)
  | succ n ih =>
    intro t b res h e he
    rw [worker_succ] at h
    rcases goWith_mem (g t) t b 0 res h e he with ⟨ho, hmem⟩ | ⟨tgt, pb, sub, hmem, hsub, hesub⟩
    · constructor
      · rw [ho]; exact Reaches.refl t
      · rw [ho]; exact hmem
    · obtain ⟨hr, hgmem⟩ := ih tgt false sub hsub e hesub
      exact ⟨Reaches.head hmem hr, hgmem⟩

/-- A successful worker run at positive fuel implies a successful run
from each listed dependency target at one unit of fuel less. -/
theorem worker_step (g : DepGraph) (fuel t : Nat) (b : Bool) (res : List Edge)
    (tgt : Nat) (pb : Bool) (h : worker g (fuel + 1) t b = some res)
    (hmem : (tgt, pb) ∈ g t) : ∃ sub, worker g fuel tgt false = some sub := by
  rw [worker_succ] at h
  exact goWith_some_sub (g t) t b 0 res tgt pb h hmem

/-- A successful worker run from `t` yields a successful run from every
target reachable from `t`, at no more fuel. -/
theorem worker_reach (g : DepGraph) {t v : Nat} (hr : Reaches g t v) :
    ∀ (fuel : Nat) (b : Bool) (res : List Edge), worker g fuel t b = some res →
    ∃ f2, f2 ≤ fuel ∧ ∃ b2 res2, worker g f2 v b2 = some res2 := by
  induction hr with
  | refl x => intro fuel b res h; exact ⟨fuel, le_refl _, b, res, h⟩
  | head hxy hyz ih =>
    intro fuel b res h
    cases fuel with
    | zero => rw [worker_zero] at h; exact absurd h (by simp)
    | succ n =>
      obtain ⟨sub, hsub⟩ := worker_step g n _ b res _ _ h hxy
      obtain ⟨f2, hf2, b2, res2, h2⟩ := ih n false sub hsub
      exact ⟨f2, le_trans hf2 (Nat.le_succ n), b2, res2, h2⟩

/-- A target that lies on a dependency cycle makes the worker diverge:
no amount of fuel produces a result (the Python recursion never
terminates). -/
theorem cycle_worker_none (g : DepGraph) {t u : Nat} {pb : Bool}
    (hr : Reaches g t u) (he : (t, pb) ∈ g u) :
    ∀ (fuel : Nat) (b : Bool), worker g fuel t b = none := by
  intro fuel
  induction fuel using Nat.strong_induction_on with
  | _ fuel ih =>
    intro b
    cases hw : worker g fuel t b with
    | none => rfl
    | some res =>
      exfalso
      obtain ⟨f2, hle, b2, res2, h2⟩ := worker_reach g hr fuel b res hw
      cases f2 with
      | zero => rw [worker_zero] at h2; exact absurd h2 (by simp)
      | succ m =>
        obtain ⟨sub, hsub⟩ := worker_step g m u b2 res2 t pb h2 he
        have hm : m < fuel := Nat.lt_of_lt_of_le (Nat.lt_succ_self m) hle
        rw [ih m hm false] at hsub
        exact absurd hsub (by simp)

/-- A successful worker run never yields an edge pointing back at the
root: such an edge would witness a cycle through the root, on which the
worker diverges. -/
theorem worker_no_root_target (g : DepGraph) (fuel t : Nat) (b : Bool)
    (res : List Edge) (h : worker g fuel t b = some res) :
    ∀ e ∈ res, e.target ≠ t := by
  intro e he hcon
  obtain ⟨hr, hmem⟩ := worker_mem g fuel t b res h e he
  rw [cycle_worker_none g hr (hcon ▸ hmem) fuel b] at h
  exact absurd h (by simp)

/-- C1 counterexample: on the diamond graph (0 → 1 → 3, 0 → 2 → 3, all
public), the traversal from target 0 yields four edges of which two —
the edge owned by 1 and the edge owned by 2 — both point at target 3:
the deduplication is by `Dependency` object identity, not by target, so
a target on two paths is visited twice, contrary to the claim. -/
theorem transitive_dependencies_diamond_cex :
    transitive_dependencies diamondGraph 10 0 = some diamondEdges ∧
    ¬ (diamondEdges.map Edge.target).Nodup :=
  ⟨rfl, by decide⟩

/-- C1 (amended): whenever `transitive_dependencies` yields a finite
sequence (for any fuel), the sequence contains no dependency edge twice
and never contains an edge whose target is the root itself; however,
deduplication is by edge object, not by target, so two distinct edges
to the same target may both appear (diamonds, see the counterexample),
and on a cyclic graph the traversal does not terminate at all (modelled
as `none` for every fuel, shown for the two-target cycle) instead of
skipping already-visited targets. -/
theorem transitive_dependencies_amended :
    (∀ (g : DepGraph) (fuel t : Nat) (res : List Edge),
        transitive_dependencies g fuel t = some res →
        res.Nodup ∧ ∀ e ∈ res, e.target ≠ t) ∧
    (∀ fuel : Nat, transitive_dependencies cycleGraph fuel 0 = none) := by
  constructor
  · intro g fuel t res h
    rw [transitive_dependencies] at h
    cases hw : worker g fuel t true with
    | none => rw [hw] at h; exact absurd h (by simp)
    | some res0 =>
      rw [hw] at h
      have hres : res = dedupF res0 := by
        cases h; rfl
      subst hres
      refine ⟨nodup_dedupF _, fun e he => ?_⟩
      exact worker_no_root_target g fuel t true res0 hw e ((mem_dedupF e res0).mp he)
  · intro fuel
    have hr : Reaches cycleGraph 0 1 :=
      Reaches.head (show ((1 : Nat), true) ∈ cycleGraph 0 by decide) (Reaches.refl 1)
    have he : ((0 : Nat), true) ∈ cycleGraph 1 := by decide
    rw [transitive_dependencies, cycle_worker_none cycleGraph hr he fuel true]
    rfl

/-- C1 witness: the amended statement applied to the diamond traversal
(duplicate-free edges, none pointing at the root 0) and to the cycle at
fuel 3. -/
theorem transitive_dependencies_amended_witness :
    diamondEdges.Nodup ∧ (∀ e ∈ diamondEdges, e.target ≠ 0) ∧
    transitive_dependencies cycleGraph 3 0 = none := by
  obtain ⟨h1, h2⟩ :=
    transitive_dependencies_amended.1 diamondGraph 10 0 diamondEdges rfl
  exact ⟨h1, h2, transitive_dependencies_amended.2 3⟩

/-- A max-fold is below a bound iff the seed and every element are. -/
theorem foldl_max_lt (l : List Nat) : ∀ (a m : Nat),
    l.foldl Nat.max a < m ↔ a < m ∧ ∀ x ∈ l, x < m := by
  induction l with
  | nil => intro a m; simp
  | cons x xs ih =>
    intro a m
    rw [List.foldl_cons, ih]
    constructor
    · rintro ⟨h1, h2⟩
      rcases Nat.max_lt.mp h1 with ⟨ha, hx⟩
      exact ⟨ha, fun y hy => (List.mem_cons.mp hy).elim (fun e => e ▸ hx) (h2 y)⟩
    · rintro ⟨h1, h2⟩
      exact ⟨Nat.max_lt.mpr ⟨h1, h2 x (List.mem_cons_self x xs)⟩,
        fun y hy => h2 y (List.mem_cons_of_mem x hy)⟩

/-- A bound is below a min-fold iff it is below the seed and every
element. -/
theorem lt_foldl_min (l : List Nat) : ∀ (a m : Nat),
    m < l.foldl Nat.min a ↔ m < a ∧ ∀ x ∈ l, m < x := by
  induction l with
  | nil => intro a m; simp
  | cons x xs ih =>
    intro a m
    rw [List.foldl_cons, ih]
    constructor
    · rintro ⟨h1, h2⟩
      rcases Nat.lt_min.mp h1 with ⟨ha, hx⟩
      exact ⟨ha, fun y hy => (List.mem_cons.mp hy).elim (fun e => e ▸ hx) (h2 y)⟩
    · rintro ⟨h1, h2⟩
      exact ⟨Nat.lt_min.mpr ⟨h1, h2 x (List.mem_cons_self x xs)⟩,
        fun y hy => h2 y (List.mem_cons_of_mem x hy)⟩

/-- A min-fold never exceeds its seed. -/
theorem foldl_min_le_init (l : List Nat) : ∀ a, l.foldl Nat.min a ≤ a := by
  induction l with
  | nil => intro a; exact le_refl a
  | cons x xs ih =>
    intro a
    rw [List.foldl_cons]
    exact le_trans (ih (Nat.min a x)) (Nat.min_le_left a x)

/-- A min-fold never exceeds any list element. -/
theorem foldl_min_le_mem (l : List Nat) : ∀ a x, x ∈ l → l.foldl Nat.min a ≤ x := by
  induction l with
  | nil => intro a x h; exact absurd h (List.not_mem_nil x)
  | cons y ys ih =>
    intro a x h
    rw [List.foldl_cons]
    rcases List.mem_cons.mp h with rfl | h2
    · exact le_trans (foldl_min_le_init ys (Nat.min a x)) (Nat.min_le_right a x)
    · exact ih (Nat.min a y) x h2

/-- For an existing file, the mtime lookup ignores the fallback. -/
theorem getmtimeD_of_isSome {fs : String → Option Nat} {x : String}
    (h : (fs x).isSome = true) (d d2 : Nat) : getmtimeD fs x d = getmtimeD fs x d2 := by
  obtain ⟨m, hm⟩ := Option.isSome_iff_exists.mp h
  simp [getmtimeD, hm]

/-- C9: for a `RunCommands` (`System`) payload with nonempty declared
inputs and outputs that all exist, `is_skippable` is true exactly when
every declared input file is strictly older (by mtime) than every
declared output file — so making any input newer than some output makes
it not skippable; with inputs declared but no outputs declared it is
never skippable (always rerun); and a missing output file (its mtime
defaulting to 0) also forces a rerun, so being skippable requires the
outputs to exist. -/
theorem is_skippable_spec :
    (∀ (fs : String → Option Nat) (now : Nat) (ins outs : List String),
        ins ≠ [] → outs ≠ [] →
        (∀ x ∈ ins, (fs x).isSome = true) → (∀ x ∈ outs, (fs x).isSome = true) →
        (System.is_skippable fs now ins outs = true ↔
          ∀ i ∈ ins, ∀ o ∈ outs, getmtimeD fs i 0 < getmtimeD fs o 0)) ∧
    (∀ (fs : String → Option Nat) (now : Nat) (ins : List String),
        ins ≠ [] → System.is_skippable fs now ins [] = false) ∧
    (∀ (fs : String → Option Nat) (now : Nat) (ins outs : List String),
        ins ≠ [] → outs ≠ [] → (∃ o ∈ outs, fs o = none) →
        System.is_skippable fs now ins outs = false) := by
  refine ⟨?_, ?_, ?_⟩
  · intro fs now ins outs hin hout hins houts
    obtain ⟨i0, irest, rfl⟩ := List.exists_cons_of_ne_nil hin
    obtain ⟨o0, orest, rfl⟩ := List.exists_cons_of_ne_nil hout
    simp only [System.is_skippable, decide_eq_true_eq]
    constructor
    · intro hlt i hi o ho
      have h1 := (foldl_max_lt ((i0 :: irest).map
          (fun x => getmtimeD fs x (now + 1000))) 0 _).mp hlt
      have h2 := h1.2 _ (List.mem_map_of_mem (fun x => getmtimeD fs x (now + 1000)) hi)
      have h3 := (lt_foldl_min (orest.map (fun x => getmtimeD fs x 0))
          (getmtimeD fs o0 0) _).mp h2
      rw [getmtimeD_of_isSome (hins i hi) 0 (now + 1000)]
      rcases List.mem_cons.mp ho with rfl | ho2
      · exact h3.1
      · exact h3.2 _ (List.mem_map_of_mem (fun x => getmtimeD fs x 0) ho2)
    · intro hall
      have haux : ∀ i ∈ i0 :: irest, getmtimeD fs i (now + 1000) <
          (orest.map (fun x => getmtimeD fs x 0)).foldl Nat.min (getmtimeD fs o0 0) := by
        intro i hi
        refine (lt_foldl_min _ _ _).mpr ⟨?_, ?_⟩
        · rw [← getmtimeD_of_isSome (hins i hi) 0 (now + 1000)]
          exact hall i hi o0 (List.mem_cons_self o0 orest)
        · intro y hy
          obtain ⟨o, ho, rfl⟩ := List.mem_map.mp hy
          rw [← getmtimeD_of_isSome (hins i hi) 0 (now + 1000)]
          exact hall i hi o (List.mem_cons_of_mem o0 ho)
      refine (foldl_max_lt _ 0 _).mpr ⟨?_, ?_⟩
      · exact Nat.lt_of_le_of_lt (Nat.zero_le _) (haux i0 (List.mem_cons_self i0 irest))
      · intro x hx
        obtain ⟨i, hi, rfl⟩ := List.mem_map.mp hx
        exact haux i hi
  · intro fs now ins hin
    obtain ⟨i0, irest, rfl⟩ := List.exists_cons_of_ne_nil hin
    rfl
  · intro fs now ins outs hin hout hmiss
    obtain ⟨i0, irest, rfl⟩ := List.exists_cons_of_ne_nil hin
    obtain ⟨o0, orest, rfl⟩ := List.exists_cons_of_ne_nil hout
    obtain ⟨om, hom, homn⟩ := hmiss
    have homz : getmtimeD fs om 0 = 0 := by simp [getmtimeD, homn]
    have hof : (orest.map (fun x => getmtimeD fs x 0)).foldl Nat.min
        (getmtimeD fs o0 0) = 0 := by
      rcases List.mem_cons.mp hom with rfl | ho2
      · have := foldl_min_le_init (orest.map (fun x => getmtimeD fs x 0))
          (getmtimeD fs om 0)
        omega
      · have := foldl_min_le_mem (orest.map (fun x => getmtimeD fs x 0))
          (getmtimeD fs o0 0) (getmtimeD fs om 0)
          (List.mem_map_of_mem (fun x => getmtimeD fs x 0) ho2)
        omega
    simp only [System.is_skippable, hof]
    exact decide_eq_false (Nat.not_lt_zero _)

/-- C9 witness: with `a.c` (mtime 10) older than `a.o` (mtime 20) the
action is skippable; with no outputs declared it is not. -/
theorem is_skippable_spec_witness :
    System.is_skippable mtimesEx 100 ["a.c"] ["a.o"] = true ∧
    System.is_skippable mtimesEx 100 ["a.c"] [] = false := by
  constructor
  · exact (is_skippable_spec.1 mtimesEx 100 ["a.c"] ["a.o"] (by decide) (by decide)
      (by decide) (by decide)).mpr (by decide)
  · exact is_skippable_spec.2.1 mtimesEx 100 ["a.c"] (by decide)
